import Mathlib

/-!
Verification of `src/shelly_controller.py` (Shelly Hotkey Controller).

The development shallowly embeds the program's components:

* a JSON value model `JVal` together with `dumpV` (Python's
  `json.dump(obj, f, indent=2)`: 2-space indentation, `", "`-free item
  separators, `": "` key separators, `ensure_ascii` escaping) and `loads`
  (Python's `json.loads`, restricted to integer numerals; objects are kept
  as ordered key/value sequences, so files with duplicate keys are modelled
  as keeping both pairs);
* the configuration store `load_config` / `save_config`;
* the device client `toggle_shelly_device`, taking the HTTP layer as an
  oracle `String → Except String Nat` (URL to raised-exception-or-status);
* the connectivity probe `test_connection`, whose oracle also receives the
  timeout passed to `requests.get`;
* the Qt-side state (`AppState`): `self.shortcuts` (QShortcut objects,
  disabled ones stay alive as children of the window), and every
  `QSystemTrayIcon` ever created (each is parented to the window, so
  creating a new one in `setup_tray` leaves the old one alive and shown).
-/

set_option maxRecDepth 8192
set_option linter.unnecessarySeqFocus false

namespace Shelly

/-- JSON values as produced by Python's `json` module on this program's
configuration files.  Numbers are modelled as integers (the configuration
schema contains no numeric field at all); objects are ordered key/value
sequences. -/
inductive JVal where
  | null : JVal
  | bool (b : Bool) : JVal
  | int (n : Int) : JVal
  | str (s : String) : JVal
  | arr (xs : List JVal) : JVal
  | obj (kvs : List (String × JVal)) : JVal
deriving Repr

/-- Indentation emitted by `json.dump(..., indent=2)` at nesting level `lvl`. -/
def indentChars (lvl : Nat) : List Char := List.replicate (2 * lvl) ' '

/-- Four lowercase hex digits, as in Python's `\uXXXX` escapes. -/
def hex4 (n : Nat) : List Char :=
  [Nat.digitChar (n / 4096 % 16), Nat.digitChar (n / 256 % 16),
   Nat.digitChar (n / 16 % 16), Nat.digitChar (n % 16)]

/-- Python `json.dumps` escaping of one character (`ensure_ascii=True`):
`"` and `\` and the named control escapes, raw output for `0x20..0x7e`,
`\uXXXX` otherwise, with a surrogate pair above `0xFFFF`. -/
def escChar (c : Char) : List Char :=
  if c = '"' then ['\\', '"']
  else if c = '\\' then ['\\', '\\']
  else if c = '\n' then ['\\', 'n']
  else if c = '\r' then ['\\', 'r']
  else if c = '\t' then ['\\', 't']
  else if c.toNat = 8 then ['\\', 'b']
  else if c.toNat = 12 then ['\\', 'f']
  else if 32 ≤ c.toNat ∧ c.toNat < 127 then [c]
  else if c.toNat < 65536 then '\\' :: 'u' :: hex4 c.toNat
  else
    ('\\' :: 'u' :: hex4 (55296 + (c.toNat - 65536) / 1024)) ++
      ('\\' :: 'u' :: hex4 (56320 + (c.toNat - 65536) % 1024))

/-- Escape a whole string body. -/
def escList (cs : List Char) : List Char :=
  cs.foldr (fun c acc => escChar c ++ acc) []

/-- Decimal digits of a natural number, most significant first (fuelled;
`fuel ≥ n` always suffices). -/
def natDigitsF : Nat → Nat → List Char
  | 0, _ => []
  | fuel + 1, n => if n = 0 then [] else natDigitsF fuel (n / 10) ++ [Nat.digitChar (n % 10)]

/-- Decimal digits of a natural number (`"0"` for zero). -/
def natDigits (n : Nat) : List Char :=
  if n = 0 then ['0'] else natDigitsF (n + 1) n

/-- Python `repr` of an `int`. -/
def intChars (n : Int) : List Char :=
  if n < 0 then '-' :: natDigits n.natAbs else natDigits n.natAbs

mutual
/-- Characters written by `json.dump(v, f, indent=2)` at nesting level `lvl`. -/
def dumpV (lvl : Nat) : JVal → List Char
  | .null => 'n' :: 'u' :: ['l', 'l']
  | .bool true => 't' :: 'r' :: ['u', 'e']
  | .bool false => 'f' :: 'a' :: ['l', 's', 'e']
  | .int n => intChars n
  | .str s => '"' :: escList s.data ++ ['"']
  | .arr [] => ['[', ']']
  | .arr (x :: xs) =>
    '[' :: ('\n' :: indentChars (lvl + 1) ++ dumpV (lvl + 1) x ++ dumpItemsTail (lvl + 1) xs) ++
      '\n' :: indentChars lvl ++ [']']
  | .obj [] => ['{', '}']
  | .obj ((k, v) :: kvs) =>
    '{' :: ('\n' :: indentChars (lvl + 1) ++ ('"' :: escList k.data ++ ['"']) ++
        ':' :: ' ' :: dumpV (lvl + 1) v ++ dumpMembersTail (lvl + 1) kvs) ++
      '\n' :: indentChars lvl ++ ['}']

/-- What follows the first item of an array dump: nothing, or a comma and
the remaining items. -/
def dumpItemsTail (lvl : Nat) : List JVal → List Char
  | [] => []
  | y :: ys =>
    ',' :: '\n' :: indentChars lvl ++ dumpV lvl y ++ dumpItemsTail lvl ys

/-- What follows the first member of an object dump. -/
def dumpMembersTail (lvl : Nat) : List (String × JVal) → List Char
  | [] => []
  | (k2, v2) :: ms =>
    ',' :: '\n' :: indentChars lvl ++ ('"' :: escList k2.data ++ ['"']) ++
      ':' :: ' ' :: dumpV lvl v2 ++ dumpMembersTail lvl ms
end

/-- One item of an array dump: newline, indentation, the item. -/
def dumpItems (lvl : Nat) (x : JVal) (xs : List JVal) : List Char :=
  '\n' :: indentChars lvl ++ dumpV lvl x ++ dumpItemsTail lvl xs

/-- One member of an object dump: newline, indentation, quoted key, colon,
space, the value. -/
def dumpMembers (lvl : Nat) (k : String) (v : JVal) (kvs : List (String × JVal)) : List Char :=
  '\n' :: indentChars lvl ++ ('"' :: escList k.data ++ ['"']) ++
    ':' :: ' ' :: dumpV lvl v ++ dumpMembersTail lvl kvs

/-- The exact file contents written by `save_config` for a given in-memory
configuration value (`json.dump(self.config, f, indent=2)`). -/
def saveBytes (v : JVal) : String := String.mk (dumpV 0 v)

/-! ## The JSON reader (Python `json.loads`, integer numerals) -/

/-- JSON whitespace. -/
def isWsChar (c : Char) : Bool :=
  c = ' ' || c = '\t' || c = '\n' || c = '\r'

/-- Drop leading JSON whitespace. -/
def skipWs : List Char → List Char
  | [] => []
  | c :: r => if isWsChar c then skipWs r else c :: r

/-- Value of one hex digit. -/
def hexVal (c : Char) : Option Nat :=
  if '0' ≤ c ∧ c ≤ '9' then some (c.toNat - 48)
  else if 'a' ≤ c ∧ c ≤ 'f' then some (c.toNat - 87)
  else if 'A' ≤ c ∧ c ≤ 'F' then some (c.toNat - 55)
  else none

/-- Value of a `\uXXXX` escape's four hex digits. -/
def hex4val (a b c d : Char) : Option Nat :=
  match hexVal a, hexVal b, hexVal c, hexVal d with
  | some x, some y, some z, some w => some (4096 * x + 256 * y + 16 * z + w)
  | _, _, _, _ => none

/-- Prepend a decoded character to a string-body result. -/
def consStr (c : Char) : Option (List Char × List Char) → Option (List Char × List Char)
  | some (cs, rest) => some (c :: cs, rest)
  | none => none

mutual
/-- Read a JSON string body (after the opening quote) up to its closing
quote.  Surrogate-pair escapes are recombined; a lone surrogate escape is
rejected (Lean characters are Unicode scalar values). -/
def pStr : List Char → Option (List Char × List Char)
  | [] => none
  | c :: r =>
    if c = '"' then some ([], r)
    else if c = '\\' then pEsc r
    else if c.toNat < 32 then none
    else consStr c (pStr r)

/-- Decode one backslash escape (the characters after the backslash). -/
def pEsc : List Char → Option (List Char × List Char)
  | [] => none
  | e :: r2 =>
    if e = '"' then consStr '"' (pStr r2)
    else if e = '\\' then consStr '\\' (pStr r2)
    else if e = '/' then consStr '/' (pStr r2)
    else if e = 'n' then consStr '\n' (pStr r2)
    else if e = 'r' then consStr '\r' (pStr r2)
    else if e = 't' then consStr '\t' (pStr r2)
    else if e = 'b' then consStr (Char.ofNat 8) (pStr r2)
    else if e = 'f' then consStr (Char.ofNat 12) (pStr r2)
    else if e = 'u' then pUni r2
    else none

/-- Decode a `\uXXXX` escape (the characters after the `u`). -/
def pUni : List Char → Option (List Char × List Char)
  | h1 :: h2 :: h3 :: h4 :: r3 =>
    match hex4val h1 h2 h3 h4 with
    | none => none
    | some n =>
      if n < 55296 ∨ 57344 ≤ n then consStr (Char.ofNat n) (pStr r3)
      else if n < 56320 then pLowSurrogate n r3
      else none
  | _ => none

/-- After a high-surrogate escape `n`, decode the mandatory low-surrogate
escape and recombine. -/
def pLowSurrogate (n : Nat) : List Char → Option (List Char × List Char)
  | b1 :: b2 :: g1 :: g2 :: g3 :: g4 :: r4 =>
    if b1 = '\\' ∧ b2 = 'u' then
      match hex4val g1 g2 g3 g4 with
      | none => none
      | some m =>
        if 56320 ≤ m ∧ m < 57344 then
          consStr (Char.ofNat (65536 + (n - 55296) * 1024 + (m - 56320))) (pStr r4)
        else none
    else none
  | _ => none
end

/-- Read a maximal run of decimal digits. -/
def pDigits : List Char → List Char × List Char
  | [] => ([], [])
  | c :: r =>
    if c.isDigit then
      let p := pDigits r
      (c :: p.1, p.2)
    else ([], c :: r)

/-- Numeric value of a digit run. -/
def dval (ds : List Char) : Nat :=
  ds.foldl (fun a c => 10 * a + (c.toNat - 48)) 0

/-- True when the list does not start with a decimal digit. -/
def headOkB : List Char → Bool
  | [] => true
  | c :: _ => !c.isDigit

/-- Recognise the tail of `null` after its leading `n`. -/
def pLitNull : List Char → Option (JVal × List Char)
  | a1 :: a2 :: a3 :: r2 =>
    if a1 = 'u' ∧ a2 = 'l' ∧ a3 = 'l' then some (.null, r2) else none
  | _ => none

/-- Recognise the tail of `true` after its leading `t`. -/
def pLitTrue : List Char → Option (JVal × List Char)
  | a1 :: a2 :: a3 :: r2 =>
    if a1 = 'r' ∧ a2 = 'u' ∧ a3 = 'e' then some (.bool true, r2) else none
  | _ => none

/-- Recognise the tail of `false` after its leading `f`. -/
def pLitFalse : List Char → Option (JVal × List Char)
  | a1 :: a2 :: a3 :: a4 :: r2 =>
    if a1 = 'a' ∧ a2 = 'l' ∧ a3 = 's' ∧ a4 = 'e' then some (.bool false, r2) else none
  | _ => none

/-- Read a string value (the characters after the opening quote). -/
def pStrVal (r : List Char) : Option (JVal × List Char) :=
  match pStr r with
  | some (cs, r2) => some (.str (String.mk cs), r2)
  | none => none

/-- Read a negative integer numeral (the characters after the minus sign). -/
def pNeg (r : List Char) : Option (JVal × List Char) :=
  match pDigits r with
  | ([], _) => none
  | (d :: ds, r2) => some (.int (-(Int.ofNat (dval (d :: ds)))), r2)

/-- Read a nonnegative integer numeral whose first digit is `c`. -/
def pPos (c : Char) (r : List Char) : Option (JVal × List Char) :=
  match pDigits r with
  | (ds, r2) => some (.int (Int.ofNat (dval (c :: ds))), r2)

mutual
/-- Read one JSON value (fuelled recursive descent; leading whitespace must
already have been skipped). -/
def pValue : Nat → List Char → Option (JVal × List Char)
  | 0, _ => none
  | fuel + 1, inp =>
    match inp with
    | [] => none
    | c :: r =>
      if c = 'n' then pLitNull r
      else if c = 't' then pLitTrue r
      else if c = 'f' then pLitFalse r
      else if c = '"' then pStrVal r
      else if c = '[' then
        match skipWs r with
        | [] => none
        | d :: r2 =>
          if d = ']' then some (.arr [], r2)
          else
            match pArrItems fuel (d :: r2) with
            | some (vs, r3) => some (.arr vs, r3)
            | none => none
      else if c = '{' then
        match skipWs r with
        | [] => none
        | d :: r2 =>
          if d = '}' then some (.obj [], r2)
          else
            match pObjItems fuel (d :: r2) with
            | some (ms, r3) => some (.obj ms, r3)
            | none => none
      else if c = '-' then pNeg r
      else if c.isDigit then pPos c r
      else none

/-- Read the items of a non-empty array together with the closing `]`. -/
def pArrItems : Nat → List Char → Option (List JVal × List Char)
  | 0, _ => none
  | fuel + 1, inp =>
    match pValue fuel inp with
    | none => none
    | some (v, r) =>
      match skipWs r with
      | [] => none
      | c :: r2 =>
        if c = ',' then
          match pArrItems fuel (skipWs r2) with
          | some (vs, r3) => some (v :: vs, r3)
          | none => none
        else if c = ']' then some ([v], r2)
        else none

/-- Read one member (key, colon, value) of a non-empty object, then either
a comma and the remaining members or the closing brace. -/
def pObjItems : Nat → List Char → Option (List (String × JVal) × List Char)
  | 0, _ => none
  | fuel + 1, inp =>
    match inp with
    | [] => none
    | c :: r =>
      if c = '"' then
        match pStr r with
        | none => none
        | some (kcs, r1) =>
          match skipWs r1 with
          | [] => none
          | c2 :: r2 =>
            if c2 = ':' then
              match pValue fuel (skipWs r2) with
              | none => none
              | some (v, r3) =>
                match skipWs r3 with
                | [] => none
                | c3 :: r4 =>
                  if c3 = ',' then
                    match pObjItems fuel (skipWs r4) with
                    | some (ms, r5) => some ((String.mk kcs, v) :: ms, r5)
                    | none => none
                  else if c3 = '}' then some ([(String.mk kcs, v)], r4)
                  else none
            else none
      else none
end

/-- Python `json.loads`: parse a whole document, allowing only surrounding
whitespace. -/
def loads (s : String) : Option JVal :=
  match pValue (s.data.length + 1) (skipWs s.data) with
  | some (v, rest) => if skipWs rest = [] then some v else none
  | none => none

/-! ## Configuration store (`load_config` / `save_config`) -/

/-- What reading `~/.shelly_controller_config.json` can encounter: the file
is absent, opening/reading it raises, or it has some textual content. -/
inductive FileState where
  | missing : FileState
  | ioError : FileState
  | content (s : String) : FileState

/-- The single default hotkey entry of the default configuration. -/
def defaultHotkeyJ : JVal :=
  .obj [("name", .str "Toggle Light"), ("shortcut", .str "Ctrl+Alt+L"),
        ("endpoint", .str "relay/0"), ("action", .str "toggle")]

/-- The hard-coded default configuration returned by `load_config` when the
file is missing or unreadable or fails to parse. -/
def defaultConfig : JVal :=
  .obj [("shelly_ip", .str "192.168.1.100"),
        ("autostart", .bool false),
        ("minimize_to_tray", .bool true),
        ("hotkeys", .arr [defaultHotkeyJ])]

/-- `load_config`: return the parsed file if it exists and parses, and the
default configuration on any failure (the `except Exception: pass` path). -/
def load_config (fs : FileState) : JVal :=
  match fs with
  | .missing => defaultConfig
  | .ioError => defaultConfig
  | .content s =>
    match loads s with
    | some v => v
    | none => defaultConfig

/-- Result of one `save_config` call.  `config` is the in-memory
configuration after the call (the function only reads `self.config`);
`written` is the file content on success; `warnings` are the
`QMessageBox.warning` dialogs shown; `raised` is an exception escaping the
function (always `none`: the body is wrapped in `try/except Exception`). -/
structure SaveResult where
  config : JVal
  written : Option String
  warnings : List String
  raised : Option String
deriving Repr

/-- `save_config`: attempt to write `json.dump(self.config, f, indent=2)`;
on any exception show a warning dialog and return normally. -/
def save_config (cfg : JVal) (disk : String → Except String Unit) : SaveResult :=
  match disk (saveBytes cfg) with
  | .ok _ =>
    { config := cfg, written := some (saveBytes cfg), warnings := [], raised := none }
  | .error e =>
    { config := cfg, written := none,
      warnings := ["Failed to save configuration: " ++ e], raised := none }

/-- First value stored under a key of a JSON object (`cfg["key"]` when the
key is present). -/
def jlookupList : List (String × JVal) → String → Option JVal
  | [], _ => none
  | (k', v) :: rest, k => if k' = k then some v else jlookupList rest k

/-- Subscript access `cfg[key]` on a configuration value. -/
def jlookup : JVal → String → Option JVal
  | .obj kvs, k => jlookupList kvs k
  | _, _ => none

/-- Python `dict.update` on an association list: replace the value in place
(keeping the key's position) or append a new pair. -/
def setKV : List (String × JVal) → String → JVal → List (String × JVal)
  | [], k, v => [(k, v)]
  | (k', v') :: rest, k, v =>
    if k' = k then (k, v) :: rest else (k', v') :: setKV rest k v

/-- The `ip_input.textChanged` handler
(`self.config.update({"shelly_ip": self.ip_input.text()})`): store the
entered text verbatim.  A non-object configuration raises
(`AttributeError`), hence the `Option`. -/
def onIpEdited (cfg : JVal) (text : String) : Option JVal :=
  match cfg with
  | .obj kvs => some (.obj (setKV kvs "shelly_ip" (.str text)))
  | _ => none

/-! ## Device client (`toggle_shelly_device`) -/

/-- How one triggered action ends, as reported by the tray notification. -/
inductive Outcome where
  | success : Outcome
  | httpError (code : Nat) : Outcome
  | networkError (msg : String) : Outcome
  | unknownAction : Outcome
deriving DecidableEq, Repr

/-- `toggle_shelly_device(endpoint, action)`: build
`http://{ip}/{endpoint}`, append `?turn=...` for a known action and issue
one GET; report the outcome.  `http` maps a URL to a raised exception or a
status code; the returned list records the URLs requested, in order. -/
def toggle_shelly_device (ip endpoint action : String)
    (http : String → Except String Nat) : List String × Outcome :=
  let url := "http://" ++ ip ++ "/" ++ endpoint
  if action = "toggle" then
    let u := url ++ "?turn=toggle"
    match http u with
    | .ok code => ([u], if code = 200 then .success else .httpError code)
    | .error e => ([u], .networkError e)
  else if action = "on" ∨ action = "off" then
    let u := url ++ "?turn=" ++ action
    match http u with
    | .ok code => ([u], if code = 200 then .success else .httpError code)
    | .error e => ([u], .networkError e)
  else ([], .unknownAction)

/-! ## Connectivity probe (`test_connection`) -/

/-- The fixed endpoint order tried by `test_connection`. -/
def probeEndpoints : List String := ["/shelly", "/relay/0", "/"]

/-- One probe step list: try each endpoint with `requests.get(url, timeout=3)`
until one returns HTTP 200.  The oracle receives the URL and the timeout;
the returned list records every request issued (URL, timeout). -/
def probeGo (ip : String) (http : String → Nat → Except String Nat) :
    List String → List (String × Nat) × Bool
  | [] => ([], false)
  | ep :: rest =>
    let url := "http://" ++ ip ++ ep
    match http url 3 with
    | .ok code =>
      if code = 200 then ([(url, 3)], true)
      else
        let p := probeGo ip http rest
        ((url, 3) :: p.1, p.2)
    | .error _ =>
      let p := probeGo ip http rest
      ((url, 3) :: p.1, p.2)

/-- `test_connection`: probe `/shelly`, `/relay/0`, `/` in order. -/
def test_connection (ip : String) (http : String → Nat → Except String Nat) :
    List (String × Nat) × Bool :=
  probeGo ip http probeEndpoints

/-- Whether an endpoint would answer HTTP 200 to the probe. -/
def probeHit (ip : String) (http : String → Nat → Except String Nat) (ep : String) : Bool :=
  match http ("http://" ++ ip ++ ep) 3 with
  | .ok code => decide (code = 200)
  | .error _ => false

/-- The URL `http://{ip}/{endpoint}?turn={action}` of one control request. -/
def requestUrl (ip endpoint action : String) : String :=
  "http://" ++ ip ++ "/" ++ endpoint ++ "?turn=" ++ action

/-! ## Hotkey registry and tray (Qt object state) -/

/-- One entry of `config["hotkeys"]`. -/
structure Hotkey where
  name : String
  shortcut : String
  endpoint : String
  action : String
deriving DecidableEq, Repr

/-- One `QShortcut` object: its key sequence, the `(endpoint, action)` its
`activated` signal triggers, and whether it is enabled. -/
structure ShortcutObj where
  keySeq : String
  endpoint : String
  action : String
  enabled : Bool
deriving DecidableEq, Repr

/-- One device entry of a tray menu: its label and the `(endpoint, action)`
its `triggered` signal fires. -/
structure TrayEntry where
  label : String
  endpoint : String
  action : String
deriving DecidableEq, Repr

/-- One `QSystemTrayIcon` object with its context-menu device entries. -/
structure TrayIcon where
  deviceEntries : List TrayEntry
  visible : Bool
deriving DecidableEq, Repr

/-- The Qt object state relevant to the hotkey registry: the configuration's
hotkey list, `self.shortcuts`, the `QShortcut` objects dropped from
`self.shortcuts` (they stay alive as children of the window), and every
`QSystemTrayIcon` created so far (each is parented to the window; the last
one is `self.tray_icon`). -/
structure AppState where
  hotkeys : List Hotkey
  staleShortcuts : List ShortcutObj
  shortcuts : List ShortcutObj
  trayIcons : List TrayIcon
deriving DecidableEq, Repr

/-- The `QShortcut` built for one hotkey entry (enabled on creation). -/
def mkShortcut (h : Hotkey) : ShortcutObj :=
  { keySeq := h.shortcut, endpoint := h.endpoint, action := h.action, enabled := true }

/-- The tray-menu entry built for one hotkey entry
(label `f"{name} ({action})"`). -/
def mkTrayEntry (h : Hotkey) : TrayEntry :=
  { label := h.name ++ " (" ++ h.action ++ ")", endpoint := h.endpoint, action := h.action }

/-- `setup_shortcuts`: disable every shortcut in `self.shortcuts`, then
rebuild `self.shortcuts` from the current hotkey list. -/
def setup_shortcuts (s : AppState) : AppState :=
  { s with
    staleShortcuts := s.staleShortcuts ++ s.shortcuts.map (fun b => { b with enabled := false }),
    shortcuts := s.hotkeys.map mkShortcut }

/-- `setup_tray`: create a fresh `QSystemTrayIcon(self)` with a menu built
from the current hotkey list and show it.  The previous icon is only
re-assigned over (`self.tray_icon = ...`); being parented to the window it
stays alive, and nothing hides it. -/
def setup_tray (s : AppState) : AppState :=
  { s with trayIcons := s.trayIcons ++ [{ deviceEntries := s.hotkeys.map mkTrayEntry, visible := true }] }

/-- State after `__init__` for a given configured hotkey list
(`setup_shortcuts` then `setup_tray` on fresh state). -/
def initApp (hks : List Hotkey) : AppState :=
  setup_tray (setup_shortcuts
    { hotkeys := hks, staleShortcuts := [], shortcuts := [], trayIcons := [] })

/-- Write one field of a hotkey entry
(`fields = ["name", "shortcut", "endpoint", "action"]`). -/
def updateField (h : Hotkey) (col : Fin 4) (text : String) : Hotkey :=
  match col with
  | 0 => { h with name := text }
  | 1 => { h with shortcut := text }
  | 2 => { h with endpoint := text }
  | 3 => { h with action := text }

/-- In-place update of one list element. -/
def updateAt : List Hotkey → Nat → (Hotkey → Hotkey) → List Hotkey
  | [], _, _ => []
  | x :: xs, 0, f => f x :: xs
  | x :: xs, n + 1, f => x :: updateAt xs n f

/-- `hotkey_cell_changed(row, column)`: guard rows beyond the list, write
the edited cell into the configuration, then rebuild shortcuts and tray. -/
def hotkey_cell_changed (s : AppState) (row : Nat) (col : Fin 4) (text : String) : AppState :=
  if s.hotkeys.length ≤ row then s
  else
    setup_tray (setup_shortcuts
      { s with hotkeys := updateAt s.hotkeys row (fun h => updateField h col text) })

/-- The fresh entry appended by `add_hotkey`. -/
def newHotkey : Hotkey :=
  { name := "New Hotkey", shortcut := "Ctrl+Alt+N", endpoint := "relay/0", action := "toggle" }

/-- `add_hotkey`: append the template entry, then rebuild shortcuts and tray. -/
def add_hotkey (s : AppState) : AppState :=
  setup_tray (setup_shortcuts { s with hotkeys := s.hotkeys ++ [newHotkey] })

/-- Python `list.pop(i)` restricted to its effect on the list. -/
def popAt : List Hotkey → Nat → List Hotkey
  | [], _ => []
  | _ :: xs, 0 => xs
  | x :: xs, n + 1 => x :: popAt xs n

/-- `remove_hotkey`: with no selected row do nothing; otherwise pop the
first selected row (when in range) and rebuild shortcuts and tray. -/
def remove_hotkey (s : AppState) (sel : Option Nat) : AppState :=
  match sel with
  | none => s
  | some row =>
    if row < s.hotkeys.length then
      setup_tray (setup_shortcuts { s with hotkeys := popAt s.hotkeys row })
    else s

/-- The enabled keyboard-shortcut bindings among all `QShortcut` objects. -/
def activeShortcuts (s : AppState) : List ShortcutObj :=
  (s.staleShortcuts ++ s.shortcuts).filter (fun b => b.enabled)

/-- The device entries of every tray icon still shown. -/
def liveTrayEntries (s : AppState) : List TrayEntry :=
  (s.trayIcons.filter (fun t => t.visible)).foldr (fun t acc => t.deviceEntries ++ acc) []

/-- The default configuration's hotkey entry, as a structured value. -/
def defaultHotkey : Hotkey :=
  { name := "Toggle Light", shortcut := "Ctrl+Alt+L", endpoint := "relay/0", action := "toggle" }

/-- A second sample hotkey entry with a distinct shortcut. -/
def sampleHotkeyB : Hotkey :=
  { name := "Office", shortcut := "Ctrl+Alt+O", endpoint := "relay/1", action := "on" }

/-! ## Whitespace and character lemmas -/

theorem skipWs_nonws {c : Char} (h : isWsChar c = false) (r : List Char) :
    skipWs (c :: r) = c :: r := by
  simp [skipWs, h]

theorem skipWs_ws {c : Char} (h : isWsChar c = true) (r : List Char) :
    skipWs (c :: r) = skipWs r := by
  simp [skipWs, h]

theorem skipWs_replicate_space (m : Nat) (r : List Char) :
    skipWs (List.replicate m ' ' ++ r) = skipWs r := by
  induction m with
  | zero => simp
  | succ m ih =>
    rw [List.replicate_succ, List.cons_append, skipWs_ws (by decide)]
    exact ih

theorem skipWs_indent (lvl : Nat) (r : List Char) :
    skipWs (indentChars lvl ++ r) = skipWs r :=
  skipWs_replicate_space _ r

theorem headOkB_cons (c : Char) (r : List Char) : headOkB (c :: r) = !c.isDigit := rfl

theorem char_toNat_valid (c : Char) :
    c.toNat < 55296 ∨ (57344 ≤ c.toNat ∧ c.toNat < 1114112) := by
  have hv : c.toNat = c.val.toNat := rfl
  rcases c.valid with h | h
  · exact Or.inl (by omega)
  · exact Or.inr (by omega)

theorem String_mk_data (s : String) : String.mk s.data = s := rfl

theorem isDigit_not_ws {c : Char} (h : c.isDigit = true) : isWsChar c = false := by
  by_contra hw
  rw [Bool.not_eq_false] at hw
  simp only [isWsChar, Bool.or_eq_true, decide_eq_true_eq] at hw
  rcases hw with ((rfl | rfl) | rfl) | rfl <;> exact absurd h (by decide)

theorem isDigit_ne_rbrack {c : Char} (h : c.isDigit = true) : c ≠ ']' := by
  intro he; subst he; exact absurd h (by decide)

theorem isDigit_ne_rbrace {c : Char} (h : c.isDigit = true) : c ≠ '}' := by
  intro he; subst he; exact absurd h (by decide)

theorem isDigit_ne_n {c : Char} (h : c.isDigit = true) : c ≠ 'n' := by
  intro he; subst he; exact absurd h (by decide)

theorem isDigit_ne_t {c : Char} (h : c.isDigit = true) : c ≠ 't' := by
  intro he; subst he; exact absurd h (by decide)

theorem isDigit_ne_f {c : Char} (h : c.isDigit = true) : c ≠ 'f' := by
  intro he; subst he; exact absurd h (by decide)

theorem isDigit_ne_quote {c : Char} (h : c.isDigit = true) : c ≠ '"' := by
  intro he; subst he; exact absurd h (by decide)

theorem isDigit_ne_lbrack {c : Char} (h : c.isDigit = true) : c ≠ '[' := by
  intro he; subst he; exact absurd h (by decide)

theorem isDigit_ne_lbrace {c : Char} (h : c.isDigit = true) : c ≠ '{' := by
  intro he; subst he; exact absurd h (by decide)

theorem isDigit_ne_minus {c : Char} (h : c.isDigit = true) : c ≠ '-' := by
  intro he; subst he; exact absurd h (by decide)

/-! ## Decimal digit lemmas -/

theorem digitChar_isDigit : ∀ k, k < 10 → (Nat.digitChar k).isDigit = true := by decide

theorem digitChar_toNat : ∀ k, k < 10 → (Nat.digitChar k).toNat = 48 + k := by decide

theorem natDigitsF_zero (f : Nat) : natDigitsF f 0 = [] := by
  cases f <;> simp [natDigitsF]

theorem natDigitsF_all_digits :
    ∀ f n, ∀ c ∈ natDigitsF f n, c.isDigit = true := by
  intro f
  induction f with
  | zero => intro n c hc; simp [natDigitsF] at hc
  | succ f ih =>
    intro n c hc
    rw [natDigitsF] at hc
    split at hc
    · simp at hc
    · rcases List.mem_append.mp hc with h | h
      · exact ih _ c h
      · rcases List.mem_singleton.mp h with rfl
        exact digitChar_isDigit _ (Nat.mod_lt _ (by omega))

theorem dval_append_digit (ds : List Char) (d : Char) :
    dval (ds ++ [d]) = 10 * dval ds + (d.toNat - 48) := by
  simp [dval, List.foldl_append]

theorem dval_natDigitsF : ∀ f n, 0 < n → n ≤ f → dval (natDigitsF f n) = n := by
  intro f
  induction f with
  | zero => intro n h1 h2; omega
  | succ f ih =>
    intro n h1 h2
    rw [natDigitsF, if_neg (by omega), dval_append_digit,
      digitChar_toNat _ (Nat.mod_lt _ (by omega))]
    by_cases h10 : n / 10 = 0
    · rw [h10, natDigitsF_zero]
      have hv : dval [] = 0 := rfl
      rw [hv]
      omega
    · rw [ih (n / 10) (by omega) (by omega)]
      omega

theorem natDigits_all_digits (n : Nat) : ∀ c ∈ natDigits n, c.isDigit = true := by
  unfold natDigits
  split
  · decide
  · exact natDigitsF_all_digits (n + 1) n

theorem dval_natDigits (n : Nat) : dval (natDigits n) = n := by
  unfold natDigits
  split
  · simp_all [dval]
  · rename_i h
    exact dval_natDigitsF (n + 1) n (by omega) (by omega)

theorem natDigits_ne_nil (n : Nat) : natDigits n ≠ [] := by
  unfold natDigits
  split
  · simp
  · rename_i h
    rw [natDigitsF, if_neg h]
    simp

theorem natDigits_shape (n : Nat) :
    ∃ d ds, natDigits n = d :: ds ∧ d.isDigit = true ∧ ∀ c ∈ ds, c.isDigit = true := by
  cases hnd : natDigits n with
  | nil => exact absurd hnd (natDigits_ne_nil n)
  | cons d ds =>
    refine ⟨d, ds, rfl, ?_, ?_⟩
    · exact natDigits_all_digits n d (by rw [hnd]; simp)
    · intro c hc
      exact natDigits_all_digits n c (by rw [hnd]; simp [hc])

theorem pDigits_not_digit {r : List Char} (h : headOkB r = true) : pDigits r = ([], r) := by
  cases r with
  | nil => rfl
  | cons c t =>
    rw [headOkB_cons, Bool.not_eq_true'] at h
    simp [pDigits, h]

theorem pDigits_digits (ds : List Char) (hds : ∀ c ∈ ds, c.isDigit = true)
    {r : List Char} (hr : headOkB r = true) : pDigits (ds ++ r) = (ds, r) := by
  induction ds with
  | nil => simpa using pDigits_not_digit hr
  | cons c t ih =>
    rw [List.cons_append, pDigits]
    simp only [hds c (by simp), if_true]
    rw [ih (fun x hx => hds x (by simp [hx]))]

/-! ## Hex digit lemmas -/

theorem hexVal_digitChar : ∀ k, k < 16 → hexVal (Nat.digitChar k) = some k := by decide

theorem hex4val_hex4 {n : Nat} (h : n < 65536) :
    hex4val (Nat.digitChar (n / 4096 % 16)) (Nat.digitChar (n / 256 % 16))
      (Nat.digitChar (n / 16 % 16)) (Nat.digitChar (n % 16)) = some n := by
  rw [hex4val, hexVal_digitChar _ (by omega), hexVal_digitChar _ (by omega),
    hexVal_digitChar _ (by omega), hexVal_digitChar _ (by omega)]
  simp only [Option.some.injEq]
  omega

/-! ## String escaping round trip -/

theorem pStr_bs (r : List Char) : pStr ('\\' :: r) = pEsc r := by
  simp [pStr]

theorem pEsc_u (r : List Char) : pEsc ('u' :: r) = pUni r := by
  simp [pEsc]

theorem pStr_escChar (c : Char) {mid t rest : List Char}
    (ih : pStr mid = some (t, rest)) :
    pStr (escChar c ++ mid) = some (c :: t, rest) := by
  rw [escChar]
  by_cases h1 : c = '"'
  · subst h1; simp [pStr, pEsc, consStr, ih]
  · rw [if_neg h1]
    by_cases h2 : c = '\\'
    · subst h2; simp [pStr, pEsc, consStr, ih]
    · rw [if_neg h2]
      by_cases h3 : c = '\n'
      · subst h3; simp [pStr, pEsc, consStr, ih]
      · rw [if_neg h3]
        by_cases h4 : c = '\r'
        · subst h4; simp [pStr, pEsc, consStr, ih]
        · rw [if_neg h4]
          by_cases h5 : c = '\t'
          · subst h5; simp [pStr, pEsc, consStr, ih]
          · rw [if_neg h5]
            by_cases h6 : c.toNat = 8
            · have hc : Char.ofNat 8 = c := by rw [← h6, Char.ofNat_toNat]
              rw [if_pos h6]
              simp [pStr, pEsc, consStr, ih]
              exact hc
            · rw [if_neg h6]
              by_cases h7 : c.toNat = 12
              · have hc : Char.ofNat 12 = c := by rw [← h7, Char.ofNat_toNat]
                rw [if_pos h7]
                simp [pStr, pEsc, consStr, ih]
                exact hc
              · rw [if_neg h7]
                by_cases h8 : 32 ≤ c.toNat ∧ c.toNat < 127
                · rw [if_pos h8]
                  have h32 : ¬ (c.toNat < 32) := by omega
                  simp [pStr, consStr, h1, h2, h32, ih]
                · rw [if_neg h8]
                  by_cases h9 : c.toNat < 65536
                  · rw [if_pos h9]
                    have hcond : c.toNat < 55296 ∨ 57344 ≤ c.toNat := by
                      rcases char_toNat_valid c with h | h
                      · exact Or.inl h
                      · exact Or.inr h.1
                    simp only [hex4, List.cons_append, List.append_assoc, List.nil_append]
                    simp [pStr, pEsc, pUni, hex4val_hex4 h9, hcond, Char.ofNat_toNat,
                      consStr, ih]
                  · rw [if_neg h9]
                    have hlt : c.toNat < 1114112 := by
                      rcases char_toNat_valid c with h | h
                      · omega
                      · exact h.2
                    have hge : 65536 ≤ c.toNat := by omega
                    have hdivlt : (c.toNat - 65536) / 1024 < 1024 := by omega
                    have hmodlt : (c.toNat - 65536) % 1024 < 1024 :=
                      Nat.mod_lt _ (by omega)
                    have hhi : 55296 + (c.toNat - 65536) / 1024 < 65536 := by omega
                    have hlo : 56320 + (c.toNat - 65536) % 1024 < 65536 := by omega
                    have hhilow : 55296 + (c.toNat - 65536) / 1024 < 56320 := by omega
                    have hlopair : 56320 ≤ 56320 + (c.toNat - 65536) % 1024 ∧
                        56320 + (c.toNat - 65536) % 1024 < 57344 := by omega
                    have harg : 65536 + (55296 + (c.toNat - 65536) / 1024 - 55296) * 1024 +
                        (56320 + (c.toNat - 65536) % 1024 - 56320) = c.toNat := by
                      have := Nat.div_add_mod (c.toNat - 65536) 1024
                      omega
                    have hhiAB : ¬ (55296 + (c.toNat - 65536) / 1024 < 55296 ∨
                        57344 ≤ 55296 + (c.toNat - 65536) / 1024) := by omega
                    simp only [List.cons_append, List.append_assoc]
                    rw [pStr_bs, pEsc_u]
                    simp only [hex4, List.cons_append, List.nil_append]
                    rw [pUni, hex4val_hex4 hhi]
                    dsimp only []
                    rw [if_neg hhiAB, if_pos hhilow, pLowSurrogate, if_pos ⟨rfl, rfl⟩,
                      hex4val_hex4 hlo]
                    dsimp only []
                    rw [if_pos hlopair, harg, Char.ofNat_toNat, ih]
                    rfl

theorem pStr_escList (cs : List Char) (rest : List Char) :
    pStr (escList cs ++ '"' :: rest) = some (cs, rest) := by
  induction cs with
  | nil =>
    rw [show escList [] ++ '"' :: rest = '"' :: rest from rfl]
    simp [pStr]
  | cons c t ih =>
    rw [show escList (c :: t) = escChar c ++ escList t from rfl, List.append_assoc]
    exact pStr_escChar c ih

/-! ## Shape of dumped output -/

theorem dumpV_arr_cons (lvl : Nat) (x : JVal) (xs : List JVal) :
    dumpV lvl (.arr (x :: xs)) =
      '[' :: dumpItems (lvl + 1) x xs ++ '\n' :: indentChars lvl ++ [']'] := rfl

theorem dumpV_obj_cons (lvl : Nat) (k : String) (v : JVal) (kvs : List (String × JVal)) :
    dumpV lvl (.obj ((k, v) :: kvs)) =
      '{' :: dumpMembers (lvl + 1) k v kvs ++ '\n' :: indentChars lvl ++ ['}'] := rfl

theorem dumpItemsTail_cons (lvl : Nat) (y : JVal) (ys : List JVal) :
    dumpItemsTail lvl (y :: ys) = ',' :: dumpItems lvl y ys := rfl

theorem dumpMembersTail_cons (lvl : Nat) (k2 : String) (v2 : JVal)
    (ms : List (String × JVal)) :
    dumpMembersTail lvl ((k2, v2) :: ms) = ',' :: dumpMembers lvl k2 v2 ms := rfl

theorem dumpItems_eq (lvl : Nat) (x : JVal) (xs : List JVal) :
    dumpItems lvl x xs = '\n' :: indentChars lvl ++ dumpV lvl x ++ dumpItemsTail lvl xs := rfl

theorem dumpMembers_eq (lvl : Nat) (k : String) (v : JVal) (kvs : List (String × JVal)) :
    dumpMembers lvl k v kvs =
      '\n' :: indentChars lvl ++ ('"' :: escList k.data ++ ['"']) ++
        ':' :: ' ' :: dumpV lvl v ++ dumpMembersTail lvl kvs := rfl

theorem dumpV_head (lvl : Nat) (v : JVal) :
    ∃ c t, dumpV lvl v = c :: t ∧ isWsChar c = false ∧ c ≠ ']' ∧ c ≠ '}' := by
  cases v with
  | null =>
    simp only [dumpV]
    exact ⟨_, _, rfl, by decide, by decide, by decide⟩
  | bool b =>
    cases b <;> simp only [dumpV] <;> exact ⟨_, _, rfl, by decide, by decide, by decide⟩
  | int n =>
    by_cases hn : n < 0
    · simp only [dumpV, intChars, if_pos hn]
      exact ⟨_, _, rfl, by decide, by decide, by decide⟩
    · obtain ⟨d, ds, hnd, hd1, -⟩ := natDigits_shape n.natAbs
      simp only [dumpV, intChars, if_neg hn, hnd]
      exact ⟨d, ds, rfl, isDigit_not_ws hd1, isDigit_ne_rbrack hd1, isDigit_ne_rbrace hd1⟩
  | str s =>
    simp only [dumpV]
    exact ⟨_, _, rfl, by decide, by decide, by decide⟩
  | arr xs =>
    cases xs with
    | nil =>
      simp only [dumpV]
      exact ⟨_, _, rfl, by decide, by decide, by decide⟩
    | cons x xs2 =>
      simp only [dumpV, List.cons_append]
      exact ⟨_, _, rfl, by decide, by decide, by decide⟩
  | obj kvs =>
    cases kvs with
    | nil =>
      simp only [dumpV]
      exact ⟨_, _, rfl, by decide, by decide, by decide⟩
    | cons m ms =>
      obtain ⟨k, v⟩ := m
      simp only [dumpV, List.cons_append]
      exact ⟨_, _, rfl, by decide, by decide, by decide⟩

theorem skipWs_dumpV (lvl : Nat) (v : JVal) (rest : List Char) :
    skipWs (dumpV lvl v ++ rest) = dumpV lvl v ++ rest := by
  obtain ⟨c, t, hct, hws, -, -⟩ := dumpV_head lvl v
  rw [hct, List.cons_append, skipWs_nonws hws]

theorem skipWs_dumpItems (lvl : Nat) (x : JVal) (xs : List JVal) (X : List Char) :
    skipWs (dumpItems lvl x xs ++ X) = dumpV lvl x ++ (dumpItemsTail lvl xs ++ X) := by
  rw [dumpItems_eq]
  simp only [List.cons_append, List.append_assoc]
  rw [skipWs_ws (by decide), skipWs_indent, skipWs_dumpV]

theorem skipWs_dumpMembers (lvl : Nat) (k : String) (v : JVal) (kvs : List (String × JVal))
    (X : List Char) :
    skipWs (dumpMembers lvl k v kvs ++ X) =
      '"' :: (escList k.data ++ ('"' :: (':' :: (' ' :: (dumpV lvl v ++
        (dumpMembersTail lvl kvs ++ X)))))) := by
  rw [dumpMembers_eq]
  simp only [List.cons_append, List.append_assoc, List.singleton_append]
  rw [skipWs_ws (by decide), skipWs_indent, skipWs_nonws (by decide)]
  simp

theorem length_indentChars (lvl : Nat) : (indentChars lvl).length = 2 * lvl := by
  simp [indentChars]

theorem length_dumpItems (lvl : Nat) (x : JVal) (xs : List JVal) :
    (dumpItems lvl x xs).length =
      1 + 2 * lvl + (dumpV lvl x).length + (dumpItemsTail lvl xs).length := by
  rw [dumpItems_eq]
  simp [length_indentChars]
  omega

theorem length_dumpItemsTail (lvl : Nat) (y : JVal) (ys : List JVal) :
    (dumpItemsTail lvl (y :: ys)).length = 1 + (dumpItems lvl y ys).length := by
  rw [dumpItemsTail_cons]
  simp
  omega

theorem length_dumpMembers (lvl : Nat) (k : String) (v : JVal) (kvs : List (String × JVal)) :
    (dumpMembers lvl k v kvs).length =
      5 + 2 * lvl + (escList k.data).length + (dumpV lvl v).length +
        (dumpMembersTail lvl kvs).length := by
  rw [dumpMembers_eq]
  simp [length_indentChars]
  omega

theorem length_dumpMembersTail (lvl : Nat) (k2 : String) (v2 : JVal)
    (ms : List (String × JVal)) :
    (dumpMembersTail lvl ((k2, v2) :: ms)).length = 1 + (dumpMembers lvl k2 v2 ms).length := by
  rw [dumpMembersTail_cons]
  simp
  omega

theorem length_dumpV_arr (lvl : Nat) (x : JVal) (xs : List JVal) :
    (dumpV lvl (.arr (x :: xs))).length = 3 + 2 * lvl + (dumpItems (lvl + 1) x xs).length := by
  rw [dumpV_arr_cons]
  simp [length_indentChars]
  omega

theorem length_dumpV_obj (lvl : Nat) (k : String) (v : JVal) (kvs : List (String × JVal)) :
    (dumpV lvl (.obj ((k, v) :: kvs))).length =
      3 + 2 * lvl + (dumpMembers (lvl + 1) k v kvs).length := by
  rw [dumpV_obj_cons]
  simp [length_indentChars]
  omega

/-! ## The round trip: parsing a dump returns the original value -/

theorem parse_dump (fuel : Nat) :
    (∀ lvl v rest, (dumpV lvl v).length < fuel → headOkB rest = true →
      pValue fuel (dumpV lvl v ++ rest) = some (v, rest)) ∧
    (∀ lvl x xs rest, (dumpItems (lvl + 1) x xs).length < fuel →
      pArrItems fuel (dumpV (lvl + 1) x ++ (dumpItemsTail (lvl + 1) xs ++
        ('\n' :: (indentChars lvl ++ (']' :: rest))))) = some (x :: xs, rest)) ∧
    (∀ lvl k v kvs rest, (dumpMembers (lvl + 1) k v kvs).length < fuel →
      pObjItems fuel ('"' :: (escList k.data ++ ('"' :: (':' :: (' ' :: (dumpV (lvl + 1) v ++
        (dumpMembersTail (lvl + 1) kvs ++ ('\n' :: (indentChars lvl ++ ('}' :: rest))))))))))
        = some ((k, v) :: kvs, rest)) := by
  induction fuel with
  | zero =>
    refine ⟨?_, ?_, ?_⟩
    · intro lvl v rest h _; omega
    · intro lvl x xs rest h; omega
    · intro lvl k v kvs rest h; omega
  | succ fuel ih =>
    obtain ⟨ihV, ihA, ihO⟩ := ih
    refine ⟨?_, ?_, ?_⟩
    · -- one value
      intro lvl v rest hlen hok
      cases v with
      | null =>
        simp only [dumpV, List.cons_append, List.nil_append]
        simp [pValue, pLitNull]
      | bool b =>
        cases b <;> simp only [dumpV, List.cons_append, List.nil_append] <;>
          simp [pValue, pLitTrue, pLitFalse]
      | int n =>
        by_cases hn : n < 0
        · obtain ⟨d, ds, hnd, hd1, hds⟩ := natDigits_shape n.natAbs
          have hall : ∀ c ∈ d :: ds, c.isDigit = true := by
            intro c hc
            rcases List.mem_cons.mp hc with rfl | hc2
            · exact hd1
            · exact hds c hc2
          simp only [dumpV, intChars, if_pos hn, hnd, List.cons_append]
          simp only [pValue]
          simp only [Char.reduceEq, reduceIte]
          rw [pNeg, ← List.cons_append, pDigits_digits (d :: ds) hall hok]
          have hd2 : dval (d :: ds) = n.natAbs := by rw [← hnd, dval_natDigits]
          have hneg : -(Int.ofNat n.natAbs) = n := by rw [Int.ofNat_eq_coe]; omega
          show some (JVal.int (-(Int.ofNat (dval (d :: ds)))), rest) = some (JVal.int n, rest)
          rw [hd2, hneg]
        · obtain ⟨d, ds, hnd, hd1, hds⟩ := natDigits_shape n.natAbs
          simp only [dumpV, intChars, if_neg hn, hnd, List.cons_append]
          simp only [pValue]
          rw [if_neg (isDigit_ne_n hd1), if_neg (isDigit_ne_t hd1), if_neg (isDigit_ne_f hd1),
            if_neg (isDigit_ne_quote hd1), if_neg (isDigit_ne_lbrack hd1),
            if_neg (isDigit_ne_lbrace hd1), if_neg (isDigit_ne_minus hd1), if_pos hd1]
          rw [pPos, pDigits_digits ds hds hok]
          have hd2 : dval (d :: ds) = n.natAbs := by rw [← hnd, dval_natDigits]
          have hpos : Int.ofNat n.natAbs = n := by rw [Int.ofNat_eq_coe]; omega
          show some (JVal.int (Int.ofNat (dval (d :: ds))), rest) = some (JVal.int n, rest)
          rw [hd2, hpos]
      | str s =>
        simp only [dumpV, List.cons_append, List.append_assoc, List.singleton_append, List.nil_append]
        simp only [pValue]
        simp only [Char.reduceEq, reduceIte]
        rw [pStrVal, pStr_escList]
      | arr xs =>
        cases xs with
        | nil =>
          simp only [dumpV, List.cons_append, List.singleton_append, List.nil_append]
          simp only [pValue]
          simp only [Char.reduceEq, reduceIte]
          rw [skipWs_nonws (by decide)]
          simp
        | cons x xs2 =>
          have hlen2 : (dumpItems (lvl + 1) x xs2).length < fuel := by
            rw [length_dumpV_arr] at hlen; omega
          obtain ⟨c0, t0, hct, hws, hnb, -⟩ := dumpV_head (lvl + 1) x
          rw [dumpV_arr_cons]
          simp only [List.cons_append, List.append_assoc, List.singleton_append, List.nil_append]
          simp only [pValue]
          simp only [Char.reduceEq, reduceIte]
          rw [skipWs_dumpItems, hct, List.cons_append]
          simp only []
          rw [if_neg hnb, ← List.cons_append, ← hct, ihA lvl x xs2 rest hlen2]
      | obj kvs =>
        cases kvs with
        | nil =>
          simp only [dumpV, List.cons_append, List.singleton_append, List.nil_append]
          simp only [pValue]
          simp only [Char.reduceEq, reduceIte]
          rw [skipWs_nonws (by decide)]
          simp
        | cons m ms =>
          obtain ⟨k, v⟩ := m
          have hlen2 : (dumpMembers (lvl + 1) k v ms).length < fuel := by
            rw [length_dumpV_obj] at hlen; omega
          rw [dumpV_obj_cons]
          simp only [List.cons_append, List.append_assoc, List.singleton_append, List.nil_append]
          simp only [pValue]
          simp only [Char.reduceEq, reduceIte]
          rw [skipWs_dumpMembers]
          simp only []
          rw [if_neg (by decide : ¬ ('"' : Char) = '}')]
          rw [ihO lvl k v ms rest hlen2]
    · -- items of a non-empty array
      intro lvl x xs rest hlen
      have hVx : (dumpV (lvl + 1) x).length < fuel := by
        rw [length_dumpItems] at hlen; omega
      simp only [pArrItems]
      cases xs with
      | nil =>
        have hok : headOkB ('\n' :: (indentChars lvl ++ (']' :: rest))) = true := by
          rw [headOkB_cons]; decide
        rw [show dumpItemsTail (lvl + 1) ([] : List JVal) = [] from rfl, List.nil_append,
          ihV (lvl + 1) x _ hVx hok]
        simp only []
        rw [skipWs_ws (by decide), skipWs_indent, skipWs_nonws (by decide)]
        simp
      | cons y ys =>
        have hlen2 : (dumpItems (lvl + 1) y ys).length < fuel := by
          rw [length_dumpItems, length_dumpItemsTail] at hlen; omega
        have hok : headOkB (',' :: (dumpItems (lvl + 1) y ys ++
            ('\n' :: (indentChars lvl ++ (']' :: rest))))) = true := by
          rw [headOkB_cons]; decide
        rw [dumpItemsTail_cons]
        simp only [List.cons_append, List.append_assoc]
        rw [ihV (lvl + 1) x _ hVx hok]
        simp only []
        rw [skipWs_nonws (by decide)]
        simp only [Char.reduceEq, reduceIte]
        rw [skipWs_dumpItems, ihA lvl y ys rest hlen2]
    · -- members of a non-empty object
      intro lvl k v kvs rest hlen
      have hVv : (dumpV (lvl + 1) v).length < fuel := by
        rw [length_dumpMembers] at hlen; omega
      simp only [pObjItems]
      simp only [Char.reduceEq, reduceIte]
      rw [pStr_escList]
      simp only []
      rw [skipWs_nonws (by decide)]
      simp only [Char.reduceEq, reduceIte]
      cases kvs with
      | nil =>
        have hok : headOkB ('\n' :: (indentChars lvl ++ ('}' :: rest))) = true := by
          rw [headOkB_cons]; decide
        rw [show dumpMembersTail (lvl + 1) ([] : List (String × JVal)) = [] from rfl,
          List.nil_append, skipWs_ws (by decide), skipWs_dumpV,
          ihV (lvl + 1) v _ hVv hok]
        simp only []
        rw [skipWs_ws (by decide), skipWs_indent, skipWs_nonws (by decide)]
        simp [String_mk_data]
      | cons m ms =>
        obtain ⟨k2, v2⟩ := m
        have hlen2 : (dumpMembers (lvl + 1) k2 v2 ms).length < fuel := by
          rw [length_dumpMembers, length_dumpMembersTail] at hlen; omega
        have hok : headOkB (',' :: (dumpMembers (lvl + 1) k2 v2 ms ++
            ('\n' :: (indentChars lvl ++ ('}' :: rest))))) = true := by
          rw [headOkB_cons]; decide
        rw [dumpMembersTail_cons]
        simp only [List.cons_append, List.append_assoc]
        rw [skipWs_ws (by decide), skipWs_dumpV, ihV (lvl + 1) v _ hVv hok]
        simp only []
        rw [skipWs_nonws (by decide)]
        simp only [Char.reduceEq, reduceIte]
        rw [skipWs_dumpMembers, ihO lvl k2 v2 ms rest hlen2]

/-! ## Top-level round trip and configuration store lemmas -/

theorem loads_saveBytes (v : JVal) : loads (saveBytes v) = some v := by
  have hdata : (saveBytes v).data = dumpV 0 v := rfl
  rw [loads, hdata]
  have h0 : skipWs (dumpV 0 v) = dumpV 0 v := by
    have h := skipWs_dumpV 0 v []
    simpa using h
  rw [h0]
  have h := (parse_dump ((dumpV 0 v).length + 1)).1 0 v [] (by omega) rfl
  rw [List.append_nil] at h
  rw [h]
  simp [skipWs]

theorem load_config_content_saveBytes (c : JVal) :
    load_config (FileState.content (saveBytes c)) = c := by
  simp [load_config, loads_saveBytes]

/-! ## String-append bridging for request URLs -/

theorem requestUrl_toggle (ip endpoint : String) :
    ("http://" ++ ip ++ "/" ++ endpoint) ++ "?turn=toggle" = requestUrl ip endpoint "toggle" := by
  unfold requestUrl
  have h : ("?turn=" : String) ++ "toggle" = "?turn=toggle" := rfl
  rw [← h]
  simp [String.append_assoc]

theorem requestUrl_other (ip endpoint action : String) :
    ("http://" ++ ip ++ "/" ++ endpoint) ++ "?turn=" ++ action =
      requestUrl ip endpoint action := by
  simp [requestUrl, String.append_assoc]

/-! ## Probe lemmas -/

theorem probeHit_iff (ip : String) (http : String → Nat → Except String Nat) (ep : String) :
    probeHit ip http ep = true ↔ http ("http://" ++ ip ++ ep) 3 = Except.ok 200 := by
  unfold probeHit
  rcases hh : http ("http://" ++ ip ++ ep) 3 with e | c
  · simp
  · simp

theorem probeGo_hit {ip : String} {http : String → Nat → Except String Nat} {ep : String}
    (h : probeHit ip http ep = true) (rest : List String) :
    probeGo ip http (ep :: rest) = ([("http://" ++ ip ++ ep, 3)], true) := by
  have hh := (probeHit_iff ip http ep).mp h
  simp [probeGo, hh]

theorem probeGo_miss {ip : String} {http : String → Nat → Except String Nat} {ep : String}
    (h : probeHit ip http ep = false) (rest : List String) :
    probeGo ip http (ep :: rest) =
      (("http://" ++ ip ++ ep, 3) :: (probeGo ip http rest).1, (probeGo ip http rest).2) := by
  unfold probeHit at h
  rcases hh : http ("http://" ++ ip ++ ep) 3 with e | c
  · simp [probeGo, hh]
  · rw [hh] at h
    simp only [decide_eq_false_iff_not] at h
    simp [probeGo, hh, h]

/-! ## Hotkey-list and registry lemmas -/

theorem popAt_eq (l : List Hotkey) : ∀ i, i < l.length → popAt l i = l.take i ++ l.drop (i + 1) := by
  induction l with
  | nil => intro i h; simp at h
  | cons x xs ih =>
    intro i h
    cases i with
    | zero => simp [popAt]
    | succ n =>
      simp only [popAt, List.take_succ_cons, List.drop_succ_cons, List.cons_append]
      rw [ih n (by simpa using h)]

theorem length_popAt (l : List Hotkey) (i : Nat) (h : i < l.length) :
    (popAt l i).length = l.length - 1 := by
  rw [popAt_eq l i h]
  simp
  omega

theorem filter_enabled_disabled (l : List ShortcutObj) :
    (l.map (fun b => { b with enabled := false })).filter (fun b => b.enabled) = [] := by
  induction l with
  | nil => rfl
  | cons b bs ih => simpa using ih

theorem filter_enabled_mkShortcut (hl : List Hotkey) :
    (hl.map mkShortcut).filter (fun b => b.enabled) = hl.map mkShortcut := by
  induction hl with
  | nil => rfl
  | cons h hs ih => simpa [mkShortcut] using ih

theorem filter_enabled_of_disabled {l : List ShortcutObj} (h : ∀ b ∈ l, b.enabled = false) :
    l.filter (fun b => b.enabled) = [] := by
  induction l with
  | nil => rfl
  | cons b bs ih =>
    rw [List.filter_cons, if_neg (by simp [h b (by simp)])]
    exact ih (fun x hx => h x (by simp [hx]))

theorem activeShortcuts_rebuild (s : AppState)
    (hstale : ∀ b ∈ s.staleShortcuts, b.enabled = false) :
    activeShortcuts (setup_tray (setup_shortcuts s)) = s.hotkeys.map mkShortcut := by
  unfold activeShortcuts setup_tray setup_shortcuts
  simp only [List.filter_append, filter_enabled_disabled, filter_enabled_mkShortcut,
    filter_enabled_of_disabled hstale]
  simp

theorem jlookupList_setKV (kvs : List (String × JVal)) (k : String) (v : JVal) :
    jlookupList (setKV kvs k v) k = some v := by
  induction kvs with
  | nil => simp [setKV, jlookupList]
  | cons m ms ih =>
    obtain ⟨k2, v2⟩ := m
    by_cases hk : k2 = k
    · simp [setKV, hk, jlookupList]
    · simp [setKV, hk, jlookupList, ih]

/-! ## Claim theorems -/

/-- C2: for every ip and endpoint, `trigger(ip, endpooint, action)` with a
known action (`toggle`, `on`, `off`) issues exactly one HTTP GET, to
`http://{ip}/{endpoint}?turn={action}`, and the outcome is Success exactly
when the response status is 200; any other status yields the HTTP-error
outcome and any raised exception the network-error outcome. -/
theorem C2_trigger_request_and_outcome (ip endpoint action : String)
    (http : String → Except String Nat)
    (h : action = "toggle" ∨ action = "on" ∨ action = "off") :
    (toggle_shelly_device ip endpoint action http).1 = [requestUrl ip endpoint action] ∧
    ((toggle_shelly_device ip endpoint action http).2 = Outcome.success ↔
      http (requestUrl ip endpoint action) = Except.ok 200) ∧
    (∀ code, http (requestUrl ip endpoint action) = Except.ok code → code ≠ 200 →
      (toggle_shelly_device ip endpoint action http).2 = Outcome.httpError code) ∧
    (∀ e, http (requestUrl ip endpoint action) = Except.error e →
      (toggle_shelly_device ip endpoint action http).2 = Outcome.networkError e) := by
  have hbody : toggle_shelly_device ip endpoint action http =
      (match http (requestUrl ip endpoint action) with
       | .ok code =>
         ([requestUrl ip endpoint action],
           if code = 200 then Outcome.success else Outcome.httpError code)
       | .error e => ([requestUrl ip endpoint action], Outcome.networkError e)) := by
    rcases h with rfl | rfl | rfl
    · rw [toggle_shelly_device, if_pos rfl, requestUrl_toggle]
    · rw [toggle_shelly_device, if_neg (by decide), if_pos (Or.inl rfl), requestUrl_other]
    · rw [toggle_shelly_device, if_neg (by decide), if_pos (Or.inr rfl), requestUrl_other]
  rcases hh : http (requestUrl ip endpoint action) with e | c
  · rw [hbody, hh]
    dsimp only []
    refine ⟨rfl, by simp, ?_, ?_⟩
    · intro code hcode _
      cases hcode
    · intro e2 he2
      cases he2
      rfl
  · rw [hbody, hh]
    dsimp only []
    by_cases hc : c = 200
    · subst hc
      refine ⟨rfl, by simp, ?_, ?_⟩
      · intro code hcode hne
        cases hcode
        exact absurd rfl hne
      · intro e2 he2
        cases he2
    · refine ⟨rfl, ?_, ?_, ?_⟩
      · rw [if_neg hc]
        constructor
        · intro hfalse
          cases hfalse
        · intro hok
          cases hok
          exact absurd rfl hc
      · intro code hcode _
        cases hcode
        rw [if_neg hc]
      · intro e2 he2
        cases he2

/-- C2 witness: a concrete toggle against an HTTP layer that answers 200. -/
theorem C2_trigger_witness :
    (toggle_shelly_device "192.168.1.100" "relay/0" "toggle"
      (fun _ => Except.ok 200)).1 = [requestUrl "192.168.1.100" "relay/0" "toggle"] ∧
    ((toggle_shelly_device "192.168.1.100" "relay/0" "toggle"
      (fun _ => Except.ok 200)).2 = Outcome.success ↔
      (fun _ => Except.ok 200 : String → Except String Nat)
        (requestUrl "192.168.1.100" "relay/0" "toggle") = Except.ok 200) :=
  ⟨(C2_trigger_request_and_outcome "192.168.1.100" "relay/0" "toggle"
      (fun _ => Except.ok 200) (Or.inl rfl)).1,
    (C2_trigger_request_and_outcome "192.168.1.100" "relay/0" "toggle"
      (fun _ => Except.ok 200) (Or.inl rfl)).2.1⟩

/-- C3: for every action outside `toggle`, `on`, `off`, the trigger yields
the UnknownAction outcome and issues no HTTP request at all. -/
theorem C3_unknown_action_no_request (ip endpoint action : String)
    (http : String → Except String Nat)
    (h : ¬ (action = "toggle" ∨ action = "on" ∨ action = "off")) :
    toggle_shelly_device ip endpoint action http = ([], Outcome.unknownAction) := by
  have h1 : ¬ action = "toggle" := fun hh => h (Or.inl hh)
  have h2 : ¬ (action = "on" ∨ action = "off") := fun hh => h (Or.inr hh)
  rw [toggle_shelly_device, if_neg h1, if_neg h2]

/-- C3 witness: the action `banana` issues zero requests. -/
theorem C3_unknown_action_witness :
    toggle_shelly_device "192.168.1.100" "relay/0" "banana"
      (fun _ => Except.ok 200) = ([], Outcome.unknownAction) :=
  C3_unknown_action_no_request "192.168.1.100" "relay/0" "banana"
    (fun _ => Except.ok 200) (by decide)

/-- C4: when the configuration file is missing, unreadable, or fails to
parse, `load_config` returns exactly the documented default configuration:
ip `192.168.1.100`, autostart off, minimize-to-tray on, and exactly the one
default hotkey entry. -/
theorem C4_load_default_on_failure (fs : FileState)
    (h : fs = FileState.missing ∨ fs = FileState.ioError ∨
      ∃ s, fs = FileState.content s ∧ loads s = none) :
    load_config fs = defaultConfig ∧
    jlookup (load_config fs) "shelly_ip" = some (JVal.str "192.168.1.100") ∧
    jlookup (load_config fs) "autostart" = some (JVal.bool false) ∧
    jlookup (load_config fs) "minimize_to_tray" = some (JVal.bool true) ∧
    jlookup (load_config fs) "hotkeys" = some (JVal.arr [defaultHotkeyJ]) := by
  have hd : load_config fs = defaultConfig := by
    rcases h with rfl | rfl | ⟨s, rfl, hs⟩
    · rfl
    · rfl
    · simp [load_config, hs]
  rw [hd]
  exact ⟨rfl, rfl, rfl, rfl, rfl⟩

/-- C4 witness: a malformed file (`nope` is not JSON) loads as the default
configuration. -/
theorem C4_load_default_witness :
    loads "nope" = none ∧
    load_config (FileState.content "nope") = defaultConfig :=
  ⟨rfl, (C4_load_default_on_failure (FileState.content "nope")
    (Or.inr (Or.inr ⟨"nope", rfl, rfl⟩))).1⟩

/-- C5: the probe tries `/shelly`, `/relay/0`, `/` in that fixed order with
a 3-second timeout on each request, stops at the first HTTP 200 without
attempting later endpoints, returns true exactly when some endpoint answers
200, and false when all three fail, answer non-200, or time out. -/
theorem C5_probe_order_timeout_first_success (ip : String)
    (http : String → Nat → Except String Nat) :
    (test_connection ip http).1 =
      (probeEndpoints.take (probeEndpoints.findIdx (probeHit ip http) + 1)).map
        (fun ep => ("http://" ++ ip ++ ep, 3)) ∧
    (test_connection ip http).2 = probeEndpoints.any (probeHit ip http) ∧
    (∀ p ∈ (test_connection ip http).1, p.2 = 3) := by
  unfold test_connection probeEndpoints
  by_cases h1 : probeHit ip http "/shelly" = true
  · rw [probeGo_hit h1]
    refine ⟨?_, ?_, ?_⟩
    · simp [List.findIdx_cons, h1]
    · simp [h1]
    · intro p hp
      simp at hp
      simp [hp]
  · have h1f : probeHit ip http "/shelly" = false := by simpa using h1
    rw [probeGo_miss h1f]
    by_cases h2 : probeHit ip http "/relay/0" = true
    · rw [probeGo_hit h2]
      refine ⟨?_, ?_, ?_⟩
      · simp [List.findIdx_cons, h1f, h2]
      · simp [h1f, h2]
      · intro p hp
        simp at hp
        rcases hp with rfl | rfl <;> rfl
    · have h2f : probeHit ip http "/relay/0" = false := by simpa using h2
      rw [probeGo_miss h2f]
      by_cases h3 : probeHit ip http "/" = true
      · rw [probeGo_hit h3]
        refine ⟨?_, ?_, ?_⟩
        · simp [List.findIdx_cons, h1f, h2f, h3]
        · simp [h1f, h2f, h3]
        · intro p hp
          simp at hp
          rcases hp with rfl | rfl | rfl <;> rfl
      · have h3f : probeHit ip http "/" = false := by simpa using h3
        rw [probeGo_miss h3f]
        refine ⟨?_, ?_, ?_⟩
        · simp [probeGo, List.findIdx_cons, h1f, h2f, h3f]
        · simp [probeGo, h1f, h2f, h3f]
        · intro p hp
          simp [probeGo] at hp
          rcases hp with rfl | rfl | rfl <;> rfl

/-- C6: removing the hotkey at a valid index yields the list with exactly
that entry gone and every other entry in its original relative order, one
element shorter; and after the rebuild no enabled keyboard-shortcut binding
carries the removed entry's key sequence, provided no remaining entry
shares that shortcut. -/
theorem C6_remove_hotkey_spec (s : AppState) (i : Nat) (hrem : Hotkey)
    (hstale : ∀ b ∈ s.staleShortcuts, b.enabled = false)
    (hget : s.hotkeys[i]? = some hrem) :
    (remove_hotkey s (some i)).hotkeys = s.hotkeys.take i ++ s.hotkeys.drop (i + 1) ∧
    (remove_hotkey s (some i)).hotkeys.length = s.hotkeys.length - 1 ∧
    (hrem.shortcut ∉ (remove_hotkey s (some i)).hotkeys.map Hotkey.shortcut →
      ∀ b ∈ activeShortcuts (remove_hotkey s (some i)), b.keySeq ≠ hrem.shortcut) := by
  have hi : i < s.hotkeys.length := by
    rcases Nat.lt_or_ge i s.hotkeys.length with hlt | hge
    · exact hlt
    · rw [List.getElem?_eq_none hge] at hget
      cases hget
  have hre : remove_hotkey s (some i) =
      setup_tray (setup_shortcuts { s with hotkeys := popAt s.hotkeys i }) := by
    simp [remove_hotkey, hi]
  have hh : (remove_hotkey s (some i)).hotkeys = popAt s.hotkeys i := by
    rw [hre]
    rfl
  refine ⟨?_, ?_, ?_⟩
  · rw [hh, popAt_eq s.hotkeys i hi]
  · rw [hh, length_popAt s.hotkeys i hi]
  · intro hnot b hb hkey
    rw [hre,
      activeShortcuts_rebuild { s with hotkeys := popAt s.hotkeys i } hstale] at hb
    obtain ⟨a, ha, hab⟩ := List.mem_map.mp hb
    apply hnot
    rw [hh]
    have hsk : a.shortcut = hrem.shortcut := by
      rw [← hab] at hkey
      simpa [mkShortcut] using hkey
    exact List.mem_map.mpr ⟨a, ha, hsk⟩

/-- C6 witness: removing index 0 from a two-entry list. -/
theorem C6_remove_hotkey_witness :
    (initApp [defaultHotkey, sampleHotkeyB]).hotkeys[0]? = some defaultHotkey ∧
    (remove_hotkey (initApp [defaultHotkey, sampleHotkeyB]) (some 0)).hotkeys =
      (initApp [defaultHotkey, sampleHotkeyB]).hotkeys.take 0 ++
        (initApp [defaultHotkey, sampleHotkeyB]).hotkeys.drop 1 ∧
    (remove_hotkey (initApp [defaultHotkey, sampleHotkeyB]) (some 0)).hotkeys.length =
      (initApp [defaultHotkey, sampleHotkeyB]).hotkeys.length - 1 :=
  ⟨rfl,
    (C6_remove_hotkey_spec (initApp [defaultHotkey, sampleHotkeyB]) 0 defaultHotkey
      (by decide) rfl).1,
    (C6_remove_hotkey_spec (initApp [defaultHotkey, sampleHotkeyB]) 0 defaultHotkey
      (by decide) rfl).2.1⟩

/-- C7: writing the loaded configuration back to disk and repeating the
load/save cycle produces byte-identical file contents, and the saved file
is the pretty-printed 2-space-indented JSON document (shown literally for
the default configuration). -/
theorem C7_save_load_idempotent (fs : FileState) :
    saveBytes (load_config (FileState.content (saveBytes (load_config fs)))) =
      saveBytes (load_config fs) ∧
    saveBytes defaultConfig = "\x7b\n  \"shelly_ip\": \"192.168.1.100\",\n  \"autostart\": false,\n  \"minimize_to_tray\": true,\n  \"hotkeys\": [\n    \x7b\n      \"name\": \"Toggle Light\",\n      \"shortcut\": \"Ctrl+Alt+L\",\n      \"endpoint\": \"relay/0\",\n      \"action\": \"toggle\"\n    \x7d\n  ]\n\x7d" := by
  refine ⟨?_, rfl⟩
  rw [load_config_content_saveBytes]

/-- C8 counterexample: after loading the default configuration, the
reachable UI edit that clears the IP field stores the empty string in
`config["shelly_ip"]` — no default is substituted, refuting the claimed
non-emptiness invariant. -/
theorem C8_empty_ip_counterexample :
    (onIpEdited (load_config FileState.missing) "").map
      (fun c => jlookup c "shelly_ip") = some (some (JVal.str "")) ∧
    ("" : String).length = 0 :=
  ⟨rfl, rfl⟩

/-- C8 (amended): after `load_config` of a missing, unreadable, or
unparsable file the device address is the non-empty default
`192.168.1.100`; but no defaulting is applied anywhere else — the IP edit
handler stores the entered text verbatim, so an empty entry leaves
`device_address` empty. -/
theorem C8_ip_default_only_on_load (fs : FileState)
    (h : fs = FileState.missing ∨ fs = FileState.ioError ∨
      ∃ s, fs = FileState.content s ∧ loads s = none) :
    (jlookup (load_config fs) "shelly_ip" = some (JVal.str "192.168.1.100") ∧
      ("192.168.1.100" : String) ≠ "") ∧
    (∀ kvs text, onIpEdited (JVal.obj kvs) text =
        some (JVal.obj (setKV kvs "shelly_ip" (JVal.str text))) ∧
      jlookup (JVal.obj (setKV kvs "shelly_ip" (JVal.str text))) "shelly_ip" =
        some (JVal.str text)) := by
  refine ⟨⟨(C4_load_default_on_failure fs h).2.1, by decide⟩, ?_⟩
  intro kvs text
  exact ⟨rfl, jlookupList_setKV kvs "shelly_ip" (JVal.str text)⟩

/-- C8 amended-claim witness: the missing-file case. -/
theorem C8_ip_default_witness :
    jlookup (load_config FileState.missing) "shelly_ip" =
      some (JVal.str "192.168.1.100") ∧
    ("192.168.1.100" : String) ≠ "" :=
  ⟨(C8_ip_default_only_on_load FileState.missing (Or.inl rfl)).1.1,
    (C8_ip_default_only_on_load FileState.missing (Or.inl rfl)).1.2⟩

/-- C9: when the configuration write raises, `save_config` shows exactly
one warning dialog, leaves the in-memory configuration untouched, writes
nothing, and lets no exception escape (the process keeps running). -/
theorem C9_save_failure_warns_and_preserves (cfg : JVal)
    (disk : String → Except String Unit) (e : String)
    (h : disk (saveBytes cfg) = Except.error e) :
    (save_config cfg disk).config = cfg ∧
    (save_config cfg disk).warnings = ["Failed to save configuration: " ++ e] ∧
    (save_config cfg disk).written = none ∧
    (save_config cfg disk).raised = none := by
  rw [save_config, h]
  exact ⟨rfl, rfl, rfl, rfl⟩

/-- C9 witness: a full disk fails the write of the default configuration. -/
theorem C9_save_failure_witness :
    (save_config defaultConfig (fun _ => Except.error "disk full")).config =
      defaultConfig ∧
    (save_config defaultConfig (fun _ => Except.error "disk full")).warnings =
      ["Failed to save configuration: " ++ "disk full"] ∧
    (save_config defaultConfig (fun _ => Except.error "disk full")).raised = none :=
  ⟨(C9_save_failure_warns_and_preserves defaultConfig
      (fun _ => Except.error "disk full") "disk full" rfl).1,
    (C9_save_failure_warns_and_preserves defaultConfig
      (fun _ => Except.error "disk full") "disk full" rfl).2.1,
    (C9_save_failure_warns_and_preserves defaultConfig
      (fun _ => Except.error "disk full") "disk full" rfl).2.2.2⟩

/-- C1 (code behaviour at a failing input): editing the endpoint cell of the
only hotkey rebuilds shortcuts and tray, but the previous tray icon — still
parented to the window and still shown — keeps its menu binding for the old
`(relay/0, toggle)` pair: a stale tray binding stays live and two tray
icons are visible, while the enabled keyboard shortcuts do match the
current hotkey list. -/
theorem C1_stale_tray_binding_remains :
    mkTrayEntry defaultHotkey ∈
      liveTrayEntries (hotkey_cell_changed (initApp [defaultHotkey]) 0 2 "relay/1") ∧
    mkTrayEntry defaultHotkey ∉
      ((hotkey_cell_changed (initApp [defaultHotkey]) 0 2 "relay/1").hotkeys.map
        mkTrayEntry) ∧
    ((hotkey_cell_changed (initApp [defaultHotkey]) 0 2 "relay/1").trayIcons.filter
      (fun t => t.visible)).length = 2 ∧
    activeShortcuts (hotkey_cell_changed (initApp [defaultHotkey]) 0 2 "relay/1") =
      (hotkey_cell_changed (initApp [defaultHotkey]) 0 2 "relay/1").hotkeys.map
        mkShortcut := by
  decide

/-- C10: invoking remove-hotkey with no selected table row changes nothing:
the hotkey list, the active shortcut bindings, the tray icons, and indeed
the whole registry state are untouched. -/
theorem C10_remove_no_selection_noop (s : AppState) :
    (remove_hotkey s none).hotkeys = s.hotkeys ∧
    activeShortcuts (remove_hotkey s none) = activeShortcuts s ∧
    liveTrayEntries (remove_hotkey s none) = liveTrayEntries s ∧
    remove_hotkey s none = s :=
  ⟨rfl, rfl, rfl, rfl⟩

end Shelly
